import Mathlib

/-!
Verification development for the cagdemo notebook: a shallow embedding of its
cache-augmented-generation helpers (generate, get_kv_cache, clean_up, get_env)
and of the executed cell sequence, together with theorems settling the claims
about them.  The pretrained causal language model and its DynamicCache update
contract come from an external library; they are embedded abstractly: a Model
supplies arbitrary key and value vectors and last-position logits, while the
cache bookkeeping (one key tensor and one value tensor per layer, one appended
sequence position per fed token) follows the DynamicCache contract the
notebook relies on.
-/

namespace Cag

/-- A per-layer cache tensor of shape (batch, heads, seq, headDim): the entries
are head-dimension vectors, indexed by batch, head and sequence position. -/
abbrev Tensor4 := List (List (List (List Int)))

/-- The DynamicCache of the model library: one key tensor and one value tensor
per layer.  The library keeps the two lists the same length. -/
structure Cache where
  key_cache : List Tensor4
  value_cache : List Tensor4
deriving DecidableEq

/-- The python slice t[:, :, :n, :]: truncate a layer tensor to the first n
positions of the sequence axis, leaving the batch, head and head-dimension
axes untouched. -/
def sliceSeq (t : Tensor4) (n : Nat) : Tensor4 :=
  t.map (fun hs => hs.map (fun s => s.take n))

/-- clean_up from the notebook: for i in range(len(cache.key_cache)) it
replaces key_cache[i] and value_cache[i] by their slice [:, :, :origin_len, :].
The DynamicCache invariant keeps value_cache as long as key_cache, so the loop
over the key indices is a map over both lists. -/
def clean_up (cache : Cache) (origin_len : Nat) : Cache :=
  { key_cache := cache.key_cache.map (fun t => sliceSeq t origin_len),
    value_cache := cache.value_cache.map (fun t => sliceSeq t origin_len) }

/-- Abstract pretrained causal language model: layer and head counts, the
configured eos token id, arbitrary per-layer per-head key and value vectors
for each fed position, and arbitrary last-position logits. -/
structure Model where
  numLayers : Nat
  numHeads : Nat
  eos_token_id : Option Nat
  keyVec : Nat → Nat → Cache → List Nat → Nat → List Int
  valueVec : Nat → Nat → Cache → List Nat → Nat → List Int
  lastLogits : Cache → List Nat → List Int

/-- List.map with the index of each element, starting from n. -/
def mapIdxFrom (f : Nat → α → β) : Nat → List α → List β
  | _, [] => []
  | n, a :: as => f n a :: mapIdxFrom f (n + 1) as

/-- DynamicCache update of one layer tensor: append one entry per fed token
(k of them) to the sequence axis of every head; a fresh layer is created with
the (1, heads, k, headDim) layout of a batch-1 forward pass. -/
def extendTensor (heads k : Nat) (g : Nat → Nat → List Int) (old : Tensor4) : Tensor4 :=
  if old.isEmpty then
    [(List.range heads).map (fun h => (List.range k).map (fun p => g h p))]
  else
    old.map (fun hs => mapIdxFrom (fun h s => s ++ (List.range k).map (fun p => g h p)) 0 hs)

/-- Result of one forward pass with use_cache=True: the logits at the last
position (out.logits[:, -1, :] of a batch-1 input) and the updated
past_key_values. -/
structure FwdOut where
  logits : List Int
  cache : Cache

/-- One forward pass of the model on the fed tokens with the given
past_key_values: every layer of the DynamicCache gains one key vector and one
value vector per fed token, and the last-position logits are returned. -/
def forward (m : Model) (fed : List Nat) (c : Cache) : FwdOut :=
  { logits := m.lastLogits c fed,
    cache :=
      { key_cache := (List.range m.numLayers).map (fun i =>
          extendTensor m.numHeads fed.length (fun h p => m.keyVec i h c fed p)
            (c.key_cache.getD i [])),
        value_cache := (List.range m.numLayers).map (fun i =>
          extendTensor m.numHeads fed.length (fun h p => m.valueVec i h c fed p)
            (c.value_cache.getD i [])) } }

/-- torch.argmax over a batch-1 logits row: index of the first maximal entry;
helper carrying the best value, its index and the current index. -/
def argmaxAux (best : Int) (bestIdx i : Nat) : List Int → Nat
  | [] => bestIdx
  | x :: xs => if best < x then argmaxAux x i (i + 1) xs else argmaxAux best bestIdx (i + 1) xs

/-- torch.argmax over a batch-1 logits row: index of the first maximal entry. -/
def argmaxIdx : List Int → Nat
  | [] => 0
  | x :: xs => argmaxAux x 0 1 xs

/-- One iteration of the generation loop of generate, as observed from
outside: the tokens fed to the model, the past_key_values it received, and
the argmax token it produced. -/
structure Step where
  fed : List Nat
  cacheBefore : Cache
  token : Nat

/-- Default Step used with List.getD. -/
def stepDflt : Step := ⟨[], ⟨[], []⟩, 0⟩

/-- The loop of generate: next_token starts as the full input_ids; each
iteration runs the model on next_token with the running cache, takes the
argmax of the last-position logits, appends it, and breaks right after
appending when the configured eos token id was produced; otherwise
next_token becomes the single produced token.  The iterations are returned
as a Step list together with the final past_key_values. -/
def genSteps (m : Model) : Nat → List Nat → Cache → List Step × Cache
  | 0, _, c => ([], c)
  | Nat.succ fuel, next_token, c =>
    let out := forward m next_token c
    let token := argmaxIdx out.logits
    if m.eos_token_id = some token then
      ([⟨next_token, c, token⟩], out.cache)
    else
      let rest := genSteps m fuel [token] out.cache
      (⟨next_token, c, token⟩ :: rest.1, rest.2)

/-- generate from the notebook (its python default for max_new_tokens is 50;
callers here pass it explicitly).  output_ids is input_ids followed by the
produced tokens, and only output_ids[:, origin_len:] is returned; the final
past_key_values is returned as well because python mutates the caller cache
in place. -/
def generate (m : Model) (input_ids : List Nat) (past_key_values : Cache)
    (max_new_tokens : Nat) : List Nat × Cache :=
  let origin_len := input_ids.length
  let r := genSteps m max_new_tokens input_ids past_key_values
  (((input_ids ++ r.1.map Step.token).drop origin_len), r.2)

/-- get_kv_cache from the notebook: tokenize the prompt, run one forward pass
over it with a fresh DynamicCache, and return the filled cache. -/
def get_kv_cache (m : Model) (tok : String → List Nat) (prompt : String) : Cache :=
  let input_ids := tok prompt
  let cache : Cache := ⟨[], []⟩
  (forward m input_ids cache).cache

/-- The whitespace set of the python str.strip method. -/
def pyIsSpace (c : Char) : Bool :=
  c = ' ' || c = '\t' || c = '\n' || c = '\r' || c = '\x0b' || c = '\x0c'

/-- Remove the characters satisfying p from both ends of a string. -/
def stripChars (p : Char → Bool) (s : String) : String :=
  String.mk (((s.toList.dropWhile p).reverse.dropWhile p).reverse)

/-- python str.strip with no argument: remove surrounding whitespace. -/
def pyStrip (s : String) : String := stripChars pyIsSpace s

/-- python str.strip with a double-quote argument: remove surrounding
double-quote characters. -/
def stripQuotes (s : String) : String := stripChars (fun c => c = '"') s

/-- python str.split with a one-character separator: split at every
occurrence, keeping empty parts, so the part count is one more than the
separator count. -/
def splitOnChar (sep : Char) : List Char → List (List Char)
  | [] => [[]]
  | c :: cs =>
    let r := splitOnChar sep cs
    if c = sep then [] :: r
    else (c :: r.headD []) :: r.tail

/-- Iterating a python text file line by line: the newline-separated pieces
of the contents, without a final empty piece when the contents end in a
newline (each piece is consumed through str.strip, so the kept or dropped
trailing newline of a piece is immaterial). -/
def pyLines (s : String) : List String :=
  let parts := (splitOnChar '\n' s.toList).map String.mk
  if parts.getLast? = some "" then parts.dropLast else parts

/-- The system prompt the notebook builds from document.txt: the f-string
with doc_text interpolated, passed through str.strip. -/
def systemPrompt (doc_text : String) : String :=
  pyStrip ("\n<|system|>\nYou are an assistant who provides concise factual answers.\n<|user|>\nContext:\n"
    ++ doc_text ++ "\nQuestion:\n")

/-- One line of the env file, as processed by get_env: strip the line, split
on the equals sign, and succeed only when that yields exactly a key and a
value (python unpacking into two names raises ValueError otherwise); the
value loses its surrounding double quotes. -/
def parseEnvLine (line : String) : Option (String × String) :=
  match splitOnChar '=' (pyStrip line).toList with
  | [k, v] => some (String.mk k, stripQuotes (String.mk v))
  | _ => none

/-- python dict assignment d[k] = v on an insertion-ordered dictionary: an
existing key keeps its position and gets the new value, a new key is
appended at the end. -/
def dictSet (d : List (String × String)) (k v : String) : List (String × String) :=
  if d.any (fun p => p.1 = k) then
    d.map (fun p => if p.1 = k then (k, v) else p)
  else d ++ [(k, v)]

/-- python dict lookup: the value stored at the first entry with the key. -/
def dictLookup (k : String) : List (String × String) → Option String
  | [] => none
  | p :: d => if p.1 = k then some p.2 else dictLookup k d

/-- The loop body of get_env over the lines of the env file: none is the
ValueError python raises when a line does not split into exactly a key and
a value. -/
def envFold : List (String × String) → List String → Option (List (String × String))
  | d, [] => some d
  | d, line :: rest =>
    match parseEnvLine line with
    | none => none
    | some (k, v) => envFold (dictSet d k v) rest

/-- The env file get_env reads: ".env" when it exists, otherwise "env". -/
def chosenEnvFile (fs : String → Option String) : String :=
  if (fs ".env").isSome then ".env" else "env"

/-- get_env from the notebook, over a file system mapping names of existing
files to their contents: when the chosen env file does not exist it prints a
message and returns the empty dict; otherwise it folds the file lines into a
dict, raising ValueError (none) on any line without exactly one split. -/
def get_env (fs : String → Option String) : Option (List (String × String)) :=
  match fs (chosenEnvFile fs) with
  | none => some []
  | some content => envFold [] (pyLines content)

/-- shape[-2] of a layer tensor: the sequence length, read off the first
head of the first batch. -/
def tensorSeqLen (t : Tensor4) : Nat := ((t.headD []).headD []).length

/-- Every head of every batch of the layer tensor holds exactly n sequence
positions. -/
def hasSeqLen (t : Tensor4) (n : Nat) : Prop :=
  ∀ hs ∈ t, ∀ s ∈ hs, s.length = n

/-- Observable trace of one top-to-bottom run of the notebook: the file
existence checks performed, the completed get_kv_cache calls, the strings
passed to the tokenizer, the clean_up calls performed, the past_key_values
argument of each generate call reached, the answers produced, the recorded
origin_len, and the uncaught exception that stopped the run, if any. -/
structure NotebookRun where
  existsChecks : List String
  kvBuilds : Nat
  tokenized : List String
  cleanUps : Nat
  genCaches : List Cache
  answers : List (List Nat)
  origin_len : Nat
  halted : Option String

/-- The executed cells of the notebook, run top to bottom over a file system
mapping names of existing files to their contents.  The knowledge cell
checks document.txt, raising FileNotFoundError when absent, then builds the
cache once and records origin_len = key_cache[0].shape[-2].  Each query cell
runs clean_up, tokenizes the question plus a newline, and then evaluates
input_ids.to(device).  In the committed notebook no executed cell binds the
global name device (the assignment in the model-loading cell is commented
out), so that evaluation raises NameError; deviceBound = false is the
committed notebook and deviceBound = true models the notebook with that
assignment restored, in which case each query cell calls generate on the
cleaned cache (an exception aborts the cells that follow it). -/
def runNotebook (fs : String → Option String) (m : Model) (tok : String → List Nat)
    (question1 question2 : String) (deviceBound : Bool) : NotebookRun :=
  if (fs "document.txt").isNone then
    ⟨["document.txt"], 0, [], 0, [], [], 0, some "FileNotFoundError"⟩
  else
    let doc_text := (fs "document.txt").getD ""
    let system_prompt := systemPrompt doc_text
    let ronan_cache := get_kv_cache m tok system_prompt
    let origin_len := tensorSeqLen (ronan_cache.key_cache.headD [])
    let c1 := clean_up ronan_cache origin_len
    if deviceBound then
      let input_ids_q1 := tok (question1 ++ "\n")
      let r1 := generate m input_ids_q1 c1 50
      let c2 := clean_up r1.2 origin_len
      let input_ids_q2 := tok (question2 ++ "\n")
      let r2 := generate m input_ids_q2 c2 50
      ⟨["document.txt"], 1, [system_prompt, question1 ++ "\n", question2 ++ "\n"], 2,
        [c1, c2], [r1.1, r2.1], origin_len, none⟩
    else
      ⟨["document.txt"], 1, [system_prompt, question1 ++ "\n"], 1, [], [], origin_len,
        some "NameError"⟩

/-- The layer tensor tt is the truncation of t to its first n sequence
positions: same batch count, same head count per batch, every head holding
exactly n positions, each equal to the corresponding original entry. -/
def truncatedTo (t tt : Tensor4) (n : Nat) : Prop :=
  tt.length = t.length ∧
  ∀ b, b < t.length →
    ((tt.getD b []).length = (t.getD b []).length ∧
      ∀ hd, hd < (t.getD b []).length →
        (((tt.getD b []).getD hd []).length = n ∧
          ∀ p, p < n →
            ((tt.getD b []).getD hd []).getD p [] = ((t.getD b []).getD hd []).getD p []))

/-- The keys parsed from the lines of an env file, in order. -/
def envKeys (lines : List String) : List String :=
  lines.filterMap (fun l => (parseEnvLine l).map Prod.fst)

/-- A small concrete model: one layer, one head, no eos token, constant
key and value vectors, constant logits whose argmax is index 1. -/
def m0 : Model :=
  { numLayers := 1, numHeads := 1, eos_token_id := none,
    keyVec := fun _ _ _ _ _ => [0], valueVec := fun _ _ _ _ _ => [0],
    lastLogits := fun _ _ => [1, 5, 2] }

/-- A small concrete model with eos token id 1: its logits select token 0 on
an empty cache and token 1 (the eos token) once the cache is nonempty, so
generation stops at the second produced token. -/
def m2 : Model :=
  { numLayers := 1, numHeads := 1, eos_token_id := some 1,
    keyVec := fun _ _ _ _ _ => [0], valueVec := fun _ _ _ _ _ => [0],
    lastLogits := fun c _ => if (c.key_cache.headD []).isEmpty then [5, 1] else [1, 5] }

/-- A toy tokenizer: one token per prompt, carrying the prompt length. -/
def tok0 : String → List Nat := fun s => [s.length]

/-- A toy tokenizer producing one token per character. -/
def tok1 : String → List Nat := fun s => s.toList.map Char.toNat

/-- A file system holding only document.txt. -/
def fs0 : String → Option String :=
  fun f => if f = "document.txt" then some "Ronan Takizawa is a developer." else none

/-- A file system holding only a two-line .env file. -/
def fsEnv : String → Option String :=
  fun f => if f = ".env" then some "HF_TOKEN=\"abc\"\nMODE=dev\n" else none

/-- A concrete cache with one layer, one batch, one head and three sequence
positions per tensor. -/
def cW : Cache :=
  ⟨[[[[[1], [2], [3]]]]], [[[[[4], [5], [6]]]]]⟩

/-- Well-formedness the forward pass maintains on a cache built for model m:
one key and one value tensor per layer, every tensor nonempty, and every
head of every batch holding at least L sequence positions. -/
def cacheGe (m : Model) (L : Nat) (c : Cache) : Prop :=
  c.key_cache.length = m.numLayers ∧ c.value_cache.length = m.numLayers ∧
  ∀ t ∈ c.key_cache ++ c.value_cache, t ≠ [] ∧ ∀ hs ∈ t, ∀ s ∈ hs, L ≤ s.length

/-! Helper lemmas about lists. -/

theorem getD_map_of_lt (f : α → β) (l : List α) (i : Nat) (d : β) (dd : α)
    (h : i < l.length) : (l.map f).getD i d = f (l.getD i dd) := by
  induction l generalizing i with
  | nil => exact absurd h (Nat.not_lt_zero i)
  | cons a as ih =>
    cases i with
    | zero => rfl
    | succ j =>
      simp only [List.map_cons, List.getD_cons_succ]
      exact ih j (Nat.lt_of_succ_lt_succ h)

theorem getD_take_of_lt (l : List α) (n i : Nat) (d : α) (h : i < n) :
    (l.take n).getD i d = l.getD i d := by
  induction l generalizing n i with
  | nil => simp
  | cons a as ih =>
    cases n with
    | zero => exact absurd h (Nat.not_lt_zero i)
    | succ nn =>
      cases i with
      | zero => rfl
      | succ j =>
        simp only [List.take_succ_cons, List.getD_cons_succ]
        exact ih nn j (Nat.lt_of_succ_lt_succ h)

theorem getD_mem_of_lt (l : List α) (i : Nat) (d : α) (h : i < l.length) :
    l.getD i d ∈ l := by
  induction l generalizing i with
  | nil => exact absurd h (Nat.not_lt_zero i)
  | cons a as ih =>
    cases i with
    | zero => exact List.mem_cons_self a as
    | succ j =>
      simp only [List.getD_cons_succ]
      exact List.mem_cons_of_mem a (ih j (Nat.lt_of_succ_lt_succ h))

theorem getD_range_map (f : Nat → α) (n i : Nat) (d : α) (h : i < n) :
    ((List.range n).map f).getD i d = f i := by
  have h1 : i < ((List.range n).map f).length := by simpa using h
  rw [List.getD_eq_getElem _ d h1]
  simp

theorem length_mapIdxFrom (f : Nat → α → β) (n : Nat) (l : List α) :
    (mapIdxFrom f n l).length = l.length := by
  induction l generalizing n with
  | nil => rfl
  | cons a as ih => simp [mapIdxFrom, ih]

theorem mem_mapIdxFrom (f : Nat → α → β) (n : Nat) (l : List α) (b : β)
    (h : b ∈ mapIdxFrom f n l) : ∃ i a, a ∈ l ∧ b = f i a := by
  induction l generalizing n with
  | nil => simp [mapIdxFrom] at h
  | cons x xs ih =>
    simp only [mapIdxFrom, List.mem_cons] at h
    rcases h with h | h
    · exact ⟨n, x, List.mem_cons_self x xs, h⟩
    · rcases ih (n + 1) h with ⟨i, a, ha, hb⟩
      exact ⟨i, a, List.mem_cons_of_mem x ha, hb⟩

/-! Unfolding lemmas for the generation loop. -/

theorem genSteps_succ_eos (m : Model) (f : Nat) (nt : List Nat) (c : Cache)
    (he : m.eos_token_id = some (argmaxIdx (forward m nt c).logits)) :
    genSteps m (f + 1) nt c
      = ([⟨nt, c, argmaxIdx (forward m nt c).logits⟩], (forward m nt c).cache) := by
  simp only [genSteps, he, if_true]

theorem genSteps_succ_ne (m : Model) (f : Nat) (nt : List Nat) (c : Cache)
    (he : ¬ m.eos_token_id = some (argmaxIdx (forward m nt c).logits)) :
    genSteps m (f + 1) nt c
      = (⟨nt, c, argmaxIdx (forward m nt c).logits⟩ ::
            (genSteps m f [argmaxIdx (forward m nt c).logits] (forward m nt c).cache).1,
          (genSteps m f [argmaxIdx (forward m nt c).logits] (forward m nt c).cache).2) := by
  simp only [genSteps, he, if_false]

theorem genSteps_length_le (m : Model) (fuel : Nat) (nt : List Nat) (c : Cache) :
    (genSteps m fuel nt c).1.length ≤ fuel := by
  induction fuel generalizing nt c with
  | zero => exact Nat.le_refl 0
  | succ f ih =>
    by_cases he : m.eos_token_id = some (argmaxIdx (forward m nt c).logits)
    · rw [genSteps_succ_eos m f nt c he]
      exact Nat.succ_le_succ (Nat.zero_le f)
    · rw [genSteps_succ_ne m f nt c he]
      simpa using Nat.succ_le_succ (ih _ _)

theorem genSteps_head (m : Model) (fuel : Nat) (nt : List Nat) (c : Cache)
    (h : 0 < fuel) :
    0 < (genSteps m fuel nt c).1.length ∧
    ((genSteps m fuel nt c).1.getD 0 stepDflt).fed = nt ∧
    ((genSteps m fuel nt c).1.getD 0 stepDflt).cacheBefore = c ∧
    ((genSteps m fuel nt c).1.getD 0 stepDflt).token
      = argmaxIdx (forward m nt c).logits := by
  cases fuel with
  | zero => exact absurd h (Nat.lt_irrefl 0)
  | succ f =>
    by_cases he : m.eos_token_id = some (argmaxIdx (forward m nt c).logits)
    · rw [genSteps_succ_eos m f nt c he]
      exact ⟨Nat.succ_pos 0, rfl, rfl, rfl⟩
    · rw [genSteps_succ_ne m f nt c he]
      exact ⟨Nat.succ_pos _, rfl, rfl, rfl⟩

theorem genSteps_token (m : Model) (fuel : Nat) (nt : List Nat) (c : Cache) (j : Nat)
    (h : j < (genSteps m fuel nt c).1.length) :
    ((genSteps m fuel nt c).1.getD j stepDflt).token
      = argmaxIdx (forward m ((genSteps m fuel nt c).1.getD j stepDflt).fed
          ((genSteps m fuel nt c).1.getD j stepDflt).cacheBefore).logits := by
  induction fuel generalizing nt c j with
  | zero => simp [genSteps] at h
  | succ f ih =>
    by_cases he : m.eos_token_id = some (argmaxIdx (forward m nt c).logits)
    · rw [genSteps_succ_eos m f nt c he] at h ⊢
      cases j with
      | zero => rfl
      | succ i => simp at h
    · rw [genSteps_succ_ne m f nt c he] at h ⊢
      cases j with
      | zero => rfl
      | succ i =>
        simp only [List.getD_cons_succ]
        simp only [List.length_cons] at h
        exact ih _ _ i (Nat.lt_of_succ_lt_succ h)

theorem genSteps_chain (m : Model) (fuel : Nat) (nt : List Nat) (c : Cache) (j : Nat)
    (h : j + 1 < (genSteps m fuel nt c).1.length) :
    ((genSteps m fuel nt c).1.getD (j + 1) stepDflt).fed
        = [((genSteps m fuel nt c).1.getD j stepDflt).token] ∧
    ((genSteps m fuel nt c).1.getD (j + 1) stepDflt).cacheBefore
        = (forward m ((genSteps m fuel nt c).1.getD j stepDflt).fed
            ((genSteps m fuel nt c).1.getD j stepDflt).cacheBefore).cache := by
  induction fuel generalizing nt c j with
  | zero => simp [genSteps] at h
  | succ f ih =>
    by_cases he : m.eos_token_id = some (argmaxIdx (forward m nt c).logits)
    · rw [genSteps_succ_eos m f nt c he] at h
      simp at h
    · rw [genSteps_succ_ne m f nt c he] at h ⊢
      simp only [List.length_cons] at h
      cases j with
      | zero =>
        have hr : 0 < (genSteps m f [argmaxIdx (forward m nt c).logits]
            (forward m nt c).cache).1.length := Nat.lt_of_succ_lt_succ h
        have hf : 0 < f :=
          Nat.lt_of_lt_of_le hr (genSteps_length_le m f _ _)
        have hh := genSteps_head m f [argmaxIdx (forward m nt c).logits]
          (forward m nt c).cache hf
        simp only [List.getD_cons_succ, List.getD_cons_zero]
        exact ⟨hh.2.1, hh.2.2.1⟩
      | succ i =>
        simp only [List.getD_cons_succ]
        exact ih _ _ i (Nat.lt_of_succ_lt_succ h)

theorem genSteps_no_eos_before_end (m : Model) (e : Nat)
    (he : m.eos_token_id = some e) (fuel : Nat) (nt : List Nat) (c : Cache) (j : Nat)
    (h : j + 1 < (genSteps m fuel nt c).1.length) :
    ((genSteps m fuel nt c).1.getD j stepDflt).token ≠ e := by
  induction fuel generalizing nt c j with
  | zero => simp [genSteps] at h
  | succ f ih =>
    by_cases ht : m.eos_token_id = some (argmaxIdx (forward m nt c).logits)
    · rw [genSteps_succ_eos m f nt c ht] at h
      simp at h
    · rw [genSteps_succ_ne m f nt c ht] at h ⊢
      simp only [List.length_cons] at h
      cases j with
      | zero =>
        intro hc
        simp only [List.getD_cons_zero] at hc
        exact ht (hc ▸ he)
      | succ i =>
        simp only [List.getD_cons_succ]
        exact ih _ _ i (Nat.lt_of_succ_lt_succ h)

/-- C2 counterexample: the claim says every loop iteration of generate feeds
only the most recently produced token to the model, but with the two-token
prompt [5, 7] the first iteration feeds both prompt tokens. -/
theorem claim2_counterexample :
    ¬ (∀ s ∈ (genSteps m0 1 [5, 7] (Cache.mk [] [])).1, s.fed.length = 1) := by decide

/-- C2 (amended): generate is a token-by-token loop whose first iteration
feeds the full input_ids together with the running cache, whose every later
iteration feeds only the single most recently produced token together with
the cache returned by the previous forward pass, whose every iteration
appends exactly one token, the argmax of the last-position logits of the
model on what it was fed, and which returns only the newly generated
tokens, with all origin_len prompt positions dropped. -/
theorem claim2_generate_loop (m : Model) (input_ids : List Nat) (c : Cache)
    (k j : Nat) (hk : 1 ≤ k) :
    (generate m input_ids c k).1 = ((genSteps m k input_ids c).1).map Step.token ∧
    1 ≤ ((genSteps m k input_ids c).1).length ∧
    ((genSteps m k input_ids c).1).length ≤ k ∧
    (((genSteps m k input_ids c).1).getD 0 stepDflt).fed = input_ids ∧
    (((genSteps m k input_ids c).1).getD 0 stepDflt).cacheBefore = c ∧
    (j < ((genSteps m k input_ids c).1).length →
      (((genSteps m k input_ids c).1).getD j stepDflt).token
        = argmaxIdx (forward m (((genSteps m k input_ids c).1).getD j stepDflt).fed
            (((genSteps m k input_ids c).1).getD j stepDflt).cacheBefore).logits) ∧
    (j + 1 < ((genSteps m k input_ids c).1).length →
      ((((genSteps m k input_ids c).1).getD (j + 1) stepDflt).fed
          = [(((genSteps m k input_ids c).1).getD j stepDflt).token] ∧
        (((genSteps m k input_ids c).1).getD (j + 1) stepDflt).cacheBefore
          = (forward m (((genSteps m k input_ids c).1).getD j stepDflt).fed
              (((genSteps m k input_ids c).1).getD j stepDflt).cacheBefore).cache)) := by
  have hh := genSteps_head m k input_ids c hk
  refine ⟨?_, hh.1, genSteps_length_le m k input_ids c, hh.2.1, hh.2.2.1,
    fun hj => genSteps_token m k input_ids c j hj,
    fun hj => genSteps_chain m k input_ids c j hj⟩
  simp only [generate]
  exact List.drop_left _ _

/-- Witness for C2 at a concrete two-token prompt: the first iteration feeds
the full prompt and the second feeds only the token the first produced. -/
theorem claim2_witness :
    (generate m0 [5, 7] (Cache.mk [] []) 2).1
        = ((genSteps m0 2 [5, 7] (Cache.mk [] [])).1).map Step.token ∧
    (((genSteps m0 2 [5, 7] (Cache.mk [] [])).1).getD 0 stepDflt).fed = [5, 7] ∧
    (((genSteps m0 2 [5, 7] (Cache.mk [] [])).1).getD 1 stepDflt).fed
        = [(((genSteps m0 2 [5, 7] (Cache.mk [] [])).1).getD 0 stepDflt).token] := by
  have h := claim2_generate_loop m0 [5, 7] (Cache.mk [] []) 2 0 (by decide)
  exact ⟨h.1, h.2.2.2.1, (h.2.2.2.2.2.2 (by decide)).1⟩

/-- C7: generate returns at most max_new_tokens tokens, and when the model
has a configured eos token id that token never occurs before the final
position of the returned sequence: the loop breaks right after appending
it, so no token ever follows it. -/
theorem claim7_eos_stops (m : Model) (input_ids : List Nat) (c : Cache) (k : Nat) :
    (generate m input_ids c k).1.length ≤ k ∧
    ∀ e, m.eos_token_id = some e →
      ∀ j, j + 1 < (generate m input_ids c k).1.length →
        (generate m input_ids c k).1.getD j 0 ≠ e := by
  have hg : (generate m input_ids c k).1
      = ((genSteps m k input_ids c).1).map Step.token := by
    simp only [generate]
    exact List.drop_left _ _
  constructor
  · rw [hg, List.length_map]
    exact genSteps_length_le m k input_ids c
  · intro e he j hj
    rw [hg, List.length_map] at hj
    rw [hg, getD_map_of_lt Step.token _ j 0 stepDflt (Nat.lt_of_succ_lt hj)]
    exact genSteps_no_eos_before_end m e he k input_ids c j hj

/-- Witness for C7 at a concrete model whose second produced token is its
configured eos token: two tokens come back out of an allowance of five,
and the non-final position is not the eos token. -/
theorem claim7_witness :
    (generate m2 [9] (Cache.mk [] []) 5).1.length ≤ 5 ∧
    (generate m2 [9] (Cache.mk [] []) 5).1.getD 0 0 ≠ 1 := by
  have h := claim7_eos_stops m2 [9] (Cache.mk [] []) 5
  exact ⟨h.1, h.2 1 rfl 0 (by decide)⟩

theorem truncatedTo_sliceSeq (t : Tensor4) (n : Nat)
    (h : ∀ hs ∈ t, ∀ s ∈ hs, n ≤ s.length) : truncatedTo t (sliceSeq t n) n := by
  refine ⟨by simp [sliceSeq], ?_⟩
  intro b hb
  have hbatch : (sliceSeq t n).getD b [] = (t.getD b []).map (fun s => s.take n) :=
    getD_map_of_lt _ t b [] [] hb
  rw [hbatch]
  refine ⟨List.length_map _ _, ?_⟩
  intro hd hhd
  have hmem : t.getD b [] ∈ t := getD_mem_of_lt t b [] hb
  have hsmem : (t.getD b []).getD hd [] ∈ t.getD b [] := getD_mem_of_lt _ hd [] hhd
  have hlen : n ≤ ((t.getD b []).getD hd []).length := h _ hmem _ hsmem
  have hhead : ((t.getD b []).map (fun s => s.take n)).getD hd []
      = ((t.getD b []).getD hd []).take n := getD_map_of_lt _ _ hd [] [] hhd
  rw [hhead]
  constructor
  · rw [List.length_take]
    exact Nat.min_eq_left hlen
  · intro p hp
    exact getD_take_of_lt _ n p [] hp

/-- C3: on a cache whose per-layer tensors all hold at least origin_len
sequence positions, clean_up keeps the layer count and replaces every layer
by exactly its first origin_len sequence positions, with the batch and head
axes and every retained head-dimension entry unchanged. -/
theorem claim3_clean_up_truncates (cache : Cache) (origin_len : Nat)
    (hk : ∀ t ∈ cache.key_cache, ∀ hs ∈ t, ∀ s ∈ hs, origin_len ≤ s.length)
    (hv : ∀ t ∈ cache.value_cache, ∀ hs ∈ t, ∀ s ∈ hs, origin_len ≤ s.length) :
    (clean_up cache origin_len).key_cache.length = cache.key_cache.length ∧
    (clean_up cache origin_len).value_cache.length = cache.value_cache.length ∧
    (∀ i, i < cache.key_cache.length →
      truncatedTo (cache.key_cache.getD i [])
        ((clean_up cache origin_len).key_cache.getD i []) origin_len) ∧
    (∀ i, i < cache.value_cache.length →
      truncatedTo (cache.value_cache.getD i [])
        ((clean_up cache origin_len).value_cache.getD i []) origin_len) := by
  refine ⟨by simp [clean_up], by simp [clean_up], ?_, ?_⟩
  · intro i hi
    have hlayer : (clean_up cache origin_len).key_cache.getD i []
        = sliceSeq (cache.key_cache.getD i []) origin_len :=
      getD_map_of_lt _ _ i [] [] hi
    rw [hlayer]
    exact truncatedTo_sliceSeq _ origin_len
      (hk _ (getD_mem_of_lt _ i [] hi))
  · intro i hi
    have hlayer : (clean_up cache origin_len).value_cache.getD i []
        = sliceSeq (cache.value_cache.getD i []) origin_len :=
      getD_map_of_lt _ _ i [] [] hi
    rw [hlayer]
    exact truncatedTo_sliceSeq _ origin_len
      (hv _ (getD_mem_of_lt _ i [] hi))

/-- Witness for C3 on a concrete one-layer cache with three sequence
positions truncated to two: the layer count is kept and the first head of
the first batch of the key layer keeps its first entry and shrinks to two
positions. -/
theorem claim3_witness :
    (clean_up cW 2).key_cache.length = cW.key_cache.length ∧
    ((((clean_up cW 2).key_cache.getD 0 []).getD 0 []).getD 0 []).length = 2 ∧
    ((((clean_up cW 2).key_cache.getD 0 []).getD 0 []).getD 0 []).getD 0 []
      = ((((cW.key_cache.getD 0 []).getD 0 []).getD 0 []).getD 0 []) := by
  have h := claim3_clean_up_truncates cW 2 (by decide) (by decide)
  have h3 := (h.2.2.1 0 (by decide)).2 0 (by decide)
  exact ⟨h.1, (h3.2 0 (by decide)).1, ((h3.2 0 (by decide)).2 0 (by decide))⟩

/-- C8: clean_up is idempotent; taking the first origin_len sequence
positions twice is the same as taking them once. -/
theorem claim8_clean_up_idempotent (cache : Cache) (origin_len : Nat) :
    clean_up (clean_up cache origin_len) origin_len = clean_up cache origin_len := by
  have hs : ∀ t : Tensor4,
      sliceSeq (sliceSeq t origin_len) origin_len = sliceSeq t origin_len := by
    intro t
    simp [sliceSeq, List.map_map, Function.comp, List.take_take]
  cases cache with
  | mk kc vc => simp [clean_up, List.map_map, Function.comp, hs]

theorem extendTensor_nil (heads k : Nat) (g : Nat → Nat → List Int) :
    extendTensor heads k g []
      = [(List.range heads).map (fun h => (List.range k).map (fun p => g h p))] := rfl

theorem hasSeqLen_extendTensor_nil (heads k : Nat) (g : Nat → Nat → List Int) :
    hasSeqLen (extendTensor heads k g []) k := by
  intro hs hhs s hss
  rw [extendTensor_nil, List.mem_singleton] at hhs
  subst hhs
  rcases List.mem_map.mp hss with ⟨a, _, rfl⟩
  simp

theorem tensorSeqLen_extendTensor_nil (heads k : Nat) (g : Nat → Nat → List Int)
    (hH : 0 < heads) : tensorSeqLen (extendTensor heads k g []) = k := by
  cases heads with
  | zero => exact absurd hH (Nat.lt_irrefl 0)
  | succ hh =>
    rw [extendTensor_nil]
    simp [tensorSeqLen, List.range_succ_eq_map]

/-- C5: get_kv_cache runs the tokenized prompt through the model with a
fresh DynamicCache and hands back a cache holding one key tensor and one
value tensor per model layer, each with exactly one sequence position per
prompt token, in every head of every batch and as read off shape[-2]. -/
theorem claim5_get_kv_cache (m : Model) (tok : String → List Nat) (prompt : String)
    (hH : 0 < m.numHeads) :
    (get_kv_cache m tok prompt).key_cache.length = m.numLayers ∧
    (get_kv_cache m tok prompt).value_cache.length = m.numLayers ∧
    (∀ t ∈ (get_kv_cache m tok prompt).key_cache, hasSeqLen t (tok prompt).length) ∧
    (∀ t ∈ (get_kv_cache m tok prompt).value_cache, hasSeqLen t (tok prompt).length) ∧
    (∀ i, i < m.numLayers →
      tensorSeqLen ((get_kv_cache m tok prompt).key_cache.getD i [])
          = (tok prompt).length ∧
      tensorSeqLen ((get_kv_cache m tok prompt).value_cache.getD i [])
          = (tok prompt).length) := by
  refine ⟨by simp [get_kv_cache, forward], by simp [get_kv_cache, forward], ?_, ?_, ?_⟩
  · intro t ht
    simp only [get_kv_cache, forward] at ht
    rcases List.mem_map.mp ht with ⟨i, _, rfl⟩
    exact hasSeqLen_extendTensor_nil _ _ _
  · intro t ht
    simp only [get_kv_cache, forward] at ht
    rcases List.mem_map.mp ht with ⟨i, _, rfl⟩
    exact hasSeqLen_extendTensor_nil _ _ _
  · intro i hi
    constructor
    · show tensorSeqLen (((List.range m.numLayers).map _).getD i []) = _
      rw [getD_range_map _ m.numLayers i [] hi]
      exact tensorSeqLen_extendTensor_nil _ _ _ hH
    · show tensorSeqLen (((List.range m.numLayers).map _).getD i []) = _
      rw [getD_range_map _ m.numLayers i [] hi]
      exact tensorSeqLen_extendTensor_nil _ _ _ hH

/-- Witness for C5 at a concrete one-layer one-head model and a three-token
prompt: one key tensor comes back and its sequence length is three. -/
theorem claim5_witness :
    0 < m0.numHeads ∧
    (get_kv_cache m0 tok1 "abc").key_cache.length = m0.numLayers ∧
    tensorSeqLen ((get_kv_cache m0 tok1 "abc").key_cache.getD 0 [])
      = (tok1 "abc").length := by
  have h := claim5_get_kv_cache m0 tok1 "abc" (by decide)
  exact ⟨by decide, h.1, (h.2.2.2.2 0 (by decide)).1⟩

/-- C6: every top-to-bottom run of the notebook performs exactly one file
existence check, the one on document.txt, and raises FileNotFoundError
exactly when document.txt is absent; this holds whether or not the global
name device is bound, so it is unaffected by the NameError of the query
cells. -/
theorem claim6_single_existence_check (fs : String → Option String) (m : Model)
    (tok : String → List Nat) (q1 q2 : String) (b : Bool) :
    (runNotebook fs m tok q1 q2 b).existsChecks = ["document.txt"] ∧
    ((runNotebook fs m tok q1 q2 b).halted = some "FileNotFoundError"
      ↔ fs "document.txt" = none) := by
  rcases ho : fs "document.txt" with _ | doc
  · simp [runNotebook, ho]
  · cases b <;> simp [runNotebook, ho]

/-- Witness for C6 on a file system with no document.txt: the single check
is performed and the run stops with FileNotFoundError. -/
theorem claim6_witness :
    (runNotebook (fun _ => none) m0 tok0 "a" "b" false).existsChecks
      = ["document.txt"] ∧
    (runNotebook (fun _ => none) m0 tok0 "a" "b" false).halted
      = some "FileNotFoundError" := by
  have h := claim6_single_existence_check (fun _ => none) m0 tok0 "a" "b" false
  exact ⟨h.1, h.2.mpr rfl⟩

/-- C1 (code bug): in the committed notebook, a run with document.txt
present builds the knowledge cache exactly once from the system prompt and
tokenizes only the first question plus a newline, but query cell 1 stops
with NameError at input_ids.to(device), since no executed cell binds
device, so generate is never called on the cache. -/
theorem claim1_committed_run_never_generates :
    (runNotebook fs0 m0 tok0 "Who is Priya Nair?" "What are his main projects?"
        false).kvBuilds = 1 ∧
    (runNotebook fs0 m0 tok0 "Who is Priya Nair?" "What are his main projects?"
        false).tokenized
      = [systemPrompt "Ronan Takizawa is a developer.", "Who is Priya Nair?" ++ "\n"] ∧
    (runNotebook fs0 m0 tok0 "Who is Priya Nair?" "What are his main projects?"
        false).genCaches = [] ∧
    (runNotebook fs0 m0 tok0 "Who is Priya Nair?" "What are his main projects?"
        false).halted = some "NameError" :=
  ⟨rfl, rfl, rfl, rfl⟩

/-- C4 (code bug): in the committed notebook run there is no first or second
generate call at all; a single clean_up is performed before query cell 1
raises NameError, no cache is ever handed to generate and no answer is
produced, so no query starts from the restored cache the claim describes. -/
theorem claim4_no_query_reaches_generate :
    (runNotebook fs0 m0 tok0 "Who is Priya Nair?" "What are his main projects?"
        false).cleanUps = 1 ∧
    (runNotebook fs0 m0 tok0 "Who is Priya Nair?" "What are his main projects?"
        false).genCaches.length = 0 ∧
    (runNotebook fs0 m0 tok0 "Who is Priya Nair?" "What are his main projects?"
        false).answers = [] :=
  ⟨rfl, rfl, rfl⟩

/-! Lemmas about get_env. -/

theorem parseEnvLine_isSome (line : String) :
    (parseEnvLine line).isSome ↔ (splitOnChar '=' (pyStrip line).toList).length = 2 := by
  unfold parseEnvLine
  rcases hsp : splitOnChar '=' (pyStrip line).toList with _ | ⟨a, _ | ⟨b, _ | ⟨c, tl⟩⟩⟩
  · simp
  · simp
  · simp
  · simp

theorem envFold_isSome (d : List (String × String)) (lines : List String) :
    (envFold d lines).isSome ↔ ∀ line ∈ lines, (parseEnvLine line).isSome := by
  induction lines generalizing d with
  | nil => simp [envFold]
  | cons l rest ih =>
    rcases hp : parseEnvLine l with _ | ⟨k, v⟩
    · simp [envFold, hp]
    · simp [envFold, hp, ih]

theorem dictLookup_map_replace (k v : String) (d : List (String × String))
    (hany : d.any (fun p => p.1 = k) = true) :
    dictLookup k (d.map (fun p => if p.1 = k then (k, v) else p)) = some v := by
  induction d with
  | nil => simp at hany
  | cons p rest ih =>
    by_cases hp : p.1 = k
    · simp [dictLookup, hp]
    · simp only [List.any_cons, Bool.or_eq_true, decide_eq_true_eq] at hany
      rcases hany with hany | hany
      · exact absurd hany hp
      · simp only [List.map_cons, if_neg hp, dictLookup, hp, if_false]
        exact ih (by simpa using hany)

theorem dictLookup_append_new (k v : String) (d : List (String × String))
    (hnone : ∀ p ∈ d, ¬ p.1 = k) :
    dictLookup k (d ++ [(k, v)]) = some v := by
  induction d with
  | nil => simp [dictLookup]
  | cons p rest ih =>
    have hp : ¬ p.1 = k := hnone p (List.mem_cons_self p rest)
    simp only [List.cons_append, dictLookup, hp, if_false]
    exact ih (fun q hq => hnone q (List.mem_cons_of_mem p hq))

theorem dictLookup_dictSet_self (d : List (String × String)) (k v : String) :
    dictLookup k (dictSet d k v) = some v := by
  unfold dictSet
  by_cases hany : d.any (fun p => p.1 = k) = true
  · rw [if_pos hany]
    exact dictLookup_map_replace k v d hany
  · rw [if_neg hany]
    refine dictLookup_append_new k v d ?_
    intro p hp hk
    exact hany (List.any_eq_true.mpr ⟨p, hp, by simpa using hk⟩)

theorem dictLookup_map_replace_ne (k kk v : String) (hne : ¬ kk = k)
    (d : List (String × String)) :
    dictLookup k (d.map (fun p => if p.1 = kk then (kk, v) else p))
      = dictLookup k d := by
  induction d with
  | nil => rfl
  | cons p rest ih =>
    by_cases hp : p.1 = kk
    · have hpk : ¬ p.1 = k := by rw [hp]; exact hne
      simp only [List.map_cons, if_pos hp, dictLookup, if_neg hne, if_neg hpk]
      exact ih
    · simp only [List.map_cons, if_neg hp, dictLookup]
      by_cases hpk : p.1 = k
      · rw [if_pos hpk, if_pos hpk]
      · rw [if_neg hpk, if_neg hpk]
        exact ih

theorem dictLookup_append_ne (k kk v : String) (hne : ¬ kk = k)
    (d : List (String × String)) :
    dictLookup k (d ++ [(kk, v)]) = dictLookup k d := by
  induction d with
  | nil => simp [dictLookup, hne]
  | cons p rest ih =>
    simp only [List.cons_append, dictLookup]
    by_cases hpk : p.1 = k
    · rw [if_pos hpk, if_pos hpk]
    · rw [if_neg hpk, if_neg hpk]
      exact ih

theorem dictLookup_dictSet_ne (d : List (String × String)) (k kk v : String)
    (hne : ¬ kk = k) : dictLookup k (dictSet d kk v) = dictLookup k d := by
  unfold dictSet
  by_cases hany : d.any (fun p => p.1 = kk) = true
  · rw [if_pos hany]
    exact dictLookup_map_replace_ne k kk v hne d
  · rw [if_neg hany]
    exact dictLookup_append_ne k kk v hne d

theorem envFold_preserves (lines : List String) (d : List (String × String))
    (k v : String) (hv : dictLookup k d = some v)
    (hout : ∀ line ∈ lines, ∀ kk vv, parseEnvLine line = some (kk, vv) → ¬ kk = k)
    (dd : List (String × String)) (hdd : envFold d lines = some dd) :
    dictLookup k dd = some v := by
  induction lines generalizing d with
  | nil =>
    simp only [envFold, Option.some.injEq] at hdd
    rw [← hdd]
    exact hv
  | cons l rest ih =>
    rcases hp : parseEnvLine l with _ | ⟨k1, v1⟩
    · simp [envFold, hp] at hdd
    · simp only [envFold, hp] at hdd
      have hne : ¬ k1 = k := hout l (List.mem_cons_self l rest) k1 v1 hp
      refine ih (dictSet d k1 v1) ?_ ?_ hdd
      · rw [dictLookup_dictSet_ne d k k1 v1 hne]
        exact hv
      · intro line hl kk vv hpp
        exact hout line (List.mem_cons_of_mem l hl) kk vv hpp

theorem envFold_lookup (lines : List String) (d dd : List (String × String))
    (hdd : envFold d lines = some dd) (hnd : (envKeys lines).Nodup) :
    ∀ line ∈ lines, ∀ k v, parseEnvLine line = some (k, v) →
      dictLookup k dd = some v := by
  induction lines generalizing d with
  | nil => intro line hl; simp at hl
  | cons l rest ih =>
    intro line hl k v hp
    rcases hp1 : parseEnvLine l with _ | ⟨k1, v1⟩
    · simp [envFold, hp1] at hdd
    · simp only [envFold, hp1] at hdd
      have hkeys : envKeys (l :: rest) = k1 :: envKeys rest := by
        simp [envKeys, List.filterMap_cons, hp1]
      rw [hkeys, List.nodup_cons] at hnd
      rcases List.mem_cons.mp hl with rfl | hl2
      · rw [hp1] at hp
        simp only [Option.some.injEq, Prod.mk.injEq] at hp
        obtain ⟨hk, hv2⟩ := hp
        rw [← hk, ← hv2]
        refine envFold_preserves rest (dictSet d k1 v1) k1 v1
          (dictLookup_dictSet_self d k1 v1) ?_ dd hdd
        intro line2 hl3 kk vv hpp hkk
        subst hkk
        exact hnd.1 (List.mem_filterMap.mpr ⟨line2, hl3, by simp [hpp]⟩)
      · exact ih (dictSet d k1 v1) hdd hnd.2 line hl2 k v hp

/-- C9: get_env returns the empty dict without raising when neither .env nor
env exists; when the chosen env file exists, it succeeds exactly when every
line of the file, stripped, splits on the equals sign into exactly two
parts (any other line raises ValueError); and on success, whenever the line
keys are distinct, it maps the key of each line to the value of that line
with surrounding double quotes stripped. -/
theorem claim9_get_env (fs : String → Option String) (content : String) :
    (fs ".env" = none → fs "env" = none → get_env fs = some []) ∧
    (fs (chosenEnvFile fs) = some content →
      ((get_env fs).isSome ↔
        ∀ line ∈ pyLines content,
          (splitOnChar '=' (pyStrip line).toList).length = 2)) ∧
    (fs (chosenEnvFile fs) = some content → (envKeys (pyLines content)).Nodup →
      ∀ dd, get_env fs = some dd →
        ∀ line ∈ pyLines content, ∀ k v, parseEnvLine line = some (k, v) →
          dictLookup k dd = some v) := by
  refine ⟨?_, ?_, ?_⟩
  · intro h1 h2
    simp [get_env, chosenEnvFile, h1, h2]
  · intro hc
    unfold get_env
    rw [hc, envFold_isSome]
    constructor
    · intro h line hl
      exact (parseEnvLine_isSome line).mp (h line hl)
    · intro h line hl
      exact (parseEnvLine_isSome line).mpr (h line hl)
  · intro hc hnd dd hdd
    unfold get_env at hdd
    rw [hc] at hdd
    exact envFold_lookup (pyLines content) [] dd hdd hnd

/-- Witness for C9 on a concrete two-line .env file: get_env succeeds and
the looked-up first key carries its quote-stripped value. -/
theorem claim9_witness :
    get_env fsEnv = some [("HF_TOKEN", "abc"), ("MODE", "dev")] ∧
    dictLookup "HF_TOKEN" [("HF_TOKEN", "abc"), ("MODE", "dev")] = some "abc" := by
  refine ⟨by decide, ?_⟩
  exact (claim9_get_env fsEnv "HF_TOKEN=\"abc\"\nMODE=dev\n").2.2 (by decide) (by decide)
    [("HF_TOKEN", "abc"), ("MODE", "dev")] (by decide) "HF_TOKEN=\"abc\"" (by decide)
    "HF_TOKEN" "abc" (by decide)

/-! Supplementary results: with the commented-out device assignment restored
(deviceBound = true), the query cells behave as the specification intends;
in particular each generate call receives a cache every layer of which was
restored by clean_up to exactly origin_len sequence positions. -/

theorem headD_eq_getD_zero (l : List α) (d : α) : l.headD d = l.getD 0 d := by
  cases l <;> rfl

theorem extendTensor_ne_nil (heads k : Nat) (g : Nat → Nat → List Int) (old : Tensor4) :
    extendTensor heads k g old ≠ [] := by
  unfold extendTensor
  split
  · simp
  · next hne =>
    simp only [ne_eq, List.map_eq_nil_iff]
    intro hcon
    rw [hcon] at hne
    exact hne rfl

theorem extendTensor_ge (heads k L : Nat) (g : Nat → Nat → List Int) (old : Tensor4)
    (hne : ¬ old = []) (h : ∀ hs ∈ old, ∀ s ∈ hs, L ≤ s.length) :
    ∀ hs ∈ extendTensor heads k g old, ∀ s ∈ hs, L ≤ s.length := by
  intro hs hhs s hss
  have hemp : old.isEmpty = false := by
    cases old with
    | nil => exact absurd rfl hne
    | cons a as => rfl
  unfold extendTensor at hhs
  rw [hemp] at hhs
  simp only [Bool.false_eq_true, if_false] at hhs
  rcases List.mem_map.mp hhs with ⟨hs0, hhs0, rfl⟩
  rcases mem_mapIdxFrom _ 0 hs0 s hss with ⟨i, s0, hs0m, rfl⟩
  calc L ≤ s0.length := h hs0 hhs0 s0 hs0m
    _ ≤ (s0 ++ (List.range k).map (fun p => g i p)).length := by
          simp [Nat.le_add_right]

theorem forward_cacheGe (m : Model) (L : Nat) (c : Cache) (fed : List Nat)
    (h : cacheGe m L c) : cacheGe m L (forward m fed c).cache := by
  obtain ⟨hkl, hvl, hts⟩ := h
  refine ⟨by simp [forward], by simp [forward], ?_⟩
  intro t ht
  rcases List.mem_append.mp ht with ht | ht
  · simp only [forward] at ht
    rcases List.mem_map.mp ht with ⟨i, hi, rfl⟩
    have hi2 : i < c.key_cache.length := by
      rw [hkl]; exact List.mem_range.mp hi
    have hmem : c.key_cache.getD i [] ∈ c.key_cache ++ c.value_cache :=
      List.mem_append.mpr (Or.inl (getD_mem_of_lt _ i [] hi2))
    obtain ⟨hne, hge⟩ := hts _ hmem
    exact ⟨extendTensor_ne_nil _ _ _ _, extendTensor_ge _ _ L _ _ hne hge⟩
  · simp only [forward] at ht
    rcases List.mem_map.mp ht with ⟨i, hi, rfl⟩
    have hi2 : i < c.value_cache.length := by
      rw [hvl]; exact List.mem_range.mp hi
    have hmem : c.value_cache.getD i [] ∈ c.key_cache ++ c.value_cache :=
      List.mem_append.mpr (Or.inr (getD_mem_of_lt _ i [] hi2))
    obtain ⟨hne, hge⟩ := hts _ hmem
    exact ⟨extendTensor_ne_nil _ _ _ _, extendTensor_ge _ _ L _ _ hne hge⟩

theorem genSteps_cacheGe (m : Model) (L : Nat) (fuel : Nat) (nt : List Nat) (c : Cache)
    (h : cacheGe m L c) : cacheGe m L (genSteps m fuel nt c).2 := by
  induction fuel generalizing nt c with
  | zero => exact h
  | succ f ih =>
    by_cases he : m.eos_token_id = some (argmaxIdx (forward m nt c).logits)
    · rw [genSteps_succ_eos m f nt c he]
      exact forward_cacheGe m L c nt h
    · rw [genSteps_succ_ne m f nt c he]
      exact ih _ _ (forward_cacheGe m L c nt h)

theorem generate_cacheGe (m : Model) (L : Nat) (ids : List Nat) (c : Cache) (k : Nat)
    (h : cacheGe m L c) : cacheGe m L (generate m ids c k).2 := by
  simp only [generate]
  exact genSteps_cacheGe m L k ids c h

theorem clean_up_hasSeqLen (c : Cache) (L : Nat)
    (h : ∀ t ∈ c.key_cache ++ c.value_cache, ∀ hs ∈ t, ∀ s ∈ hs, L ≤ s.length) :
    ∀ t ∈ (clean_up c L).key_cache ++ (clean_up c L).value_cache, hasSeqLen t L := by
  intro t ht hs hhs s hss
  have hmain : ∃ t0 ∈ c.key_cache ++ c.value_cache, t = sliceSeq t0 L := by
    rcases List.mem_append.mp ht with ht | ht
    · rcases List.mem_map.mp ht with ⟨t0, ht0, rfl⟩
      exact ⟨t0, List.mem_append.mpr (Or.inl ht0), rfl⟩
    · rcases List.mem_map.mp ht with ⟨t0, ht0, rfl⟩
      exact ⟨t0, List.mem_append.mpr (Or.inr ht0), rfl⟩
  rcases hmain with ⟨t0, ht0, rfl⟩
  rcases List.mem_map.mp hhs with ⟨hs0, hhs0, rfl⟩
  rcases List.mem_map.mp hss with ⟨s0, hss0, rfl⟩
  rw [List.length_take]
  exact Nat.min_eq_left (h t0 ht0 hs0 hhs0 s0 hss0)

theorem clean_up_cacheGe (m : Model) (L : Nat) (c : Cache) (h : cacheGe m L c) :
    cacheGe m L (clean_up c L) := by
  obtain ⟨hkl, hvl, hts⟩ := h
  refine ⟨by simpa [clean_up] using hkl, by simpa [clean_up] using hvl, ?_⟩
  intro t ht
  constructor
  · have hne : ∃ t0 ∈ c.key_cache ++ c.value_cache, t = sliceSeq t0 L := by
      rcases List.mem_append.mp ht with ht | ht
      · rcases List.mem_map.mp ht with ⟨t0, ht0, rfl⟩
        exact ⟨t0, List.mem_append.mpr (Or.inl ht0), rfl⟩
      · rcases List.mem_map.mp ht with ⟨t0, ht0, rfl⟩
        exact ⟨t0, List.mem_append.mpr (Or.inr ht0), rfl⟩
    rcases hne with ⟨t0, ht0, rfl⟩
    have := (hts t0 ht0).1
    simp only [sliceSeq, ne_eq, List.map_eq_nil_iff]
    exact this
  · intro hs hhs s hss
    have := clean_up_hasSeqLen c L (fun t0 ht0 => (hts t0 ht0).2) t ht hs hhs s hss
    rw [this]

theorem get_kv_cache_cacheGe (m : Model) (tok : String → List Nat) (prompt : String) :
    cacheGe m ((tok prompt).length) (get_kv_cache m tok prompt) := by
  refine ⟨by simp [get_kv_cache, forward], by simp [get_kv_cache, forward], ?_⟩
  intro t ht
  have hmain : ∃ g, t = extendTensor m.numHeads (tok prompt).length g [] := by
    rcases List.mem_append.mp ht with ht | ht
    · simp only [get_kv_cache, forward] at ht
      rcases List.mem_map.mp ht with ⟨i, _, rfl⟩
      exact ⟨_, rfl⟩
    · simp only [get_kv_cache, forward] at ht
      rcases List.mem_map.mp ht with ⟨i, _, rfl⟩
      exact ⟨_, rfl⟩
  rcases hmain with ⟨g, rfl⟩
  refine ⟨extendTensor_ne_nil _ _ _ _, ?_⟩
  intro hs hhs s hss
  rw [hasSeqLen_extendTensor_nil m.numHeads (tok prompt).length g hs hhs s hss]

theorem get_kv_cache_hasSeqLen (m : Model) (tok : String → List Nat) (prompt : String) :
    ∀ t ∈ (get_kv_cache m tok prompt).key_cache ++ (get_kv_cache m tok prompt).value_cache,
      hasSeqLen t ((tok prompt).length) := by
  intro t ht
  have hmain : ∃ g, t = extendTensor m.numHeads (tok prompt).length g [] := by
    rcases List.mem_append.mp ht with ht | ht
    · simp only [get_kv_cache, forward] at ht
      rcases List.mem_map.mp ht with ⟨i, _, rfl⟩
      exact ⟨_, rfl⟩
    · simp only [get_kv_cache, forward] at ht
      rcases List.mem_map.mp ht with ⟨i, _, rfl⟩
      exact ⟨_, rfl⟩
  rcases hmain with ⟨g, rfl⟩
  exact hasSeqLen_extendTensor_nil _ _ _

theorem get_kv_cache_origin_len (m : Model) (tok : String → List Nat) (prompt : String)
    (hL : 0 < m.numLayers) (hH : 0 < m.numHeads) :
    tensorSeqLen ((get_kv_cache m tok prompt).key_cache.headD [])
      = (tok prompt).length := by
  rw [headD_eq_getD_zero]
  show tensorSeqLen (((List.range m.numLayers).map _).getD 0 []) = _
  rw [getD_range_map _ m.numLayers 0 [] hL]
  exact tensorSeqLen_extendTensor_nil _ _ _ hH

/-- With the device assignment restored, the notebook run with document.txt
present builds the cache once, tokenizes the system prompt and then exactly
the two questions with a newline appended, records origin_len as the token
count of the system prompt, and hands each of the two generate calls a
cache every layer of which clean_up restored to exactly origin_len
sequence positions in every head of every batch. -/
theorem runNotebook_restored_extents (fs : String → Option String) (m : Model)
    (tok : String → List Nat) (q1 q2 doc : String)
    (hdoc : fs "document.txt" = some doc)
    (hL : 0 < m.numLayers) (hH : 0 < m.numHeads) :
    (runNotebook fs m tok q1 q2 true).kvBuilds = 1 ∧
    (runNotebook fs m tok q1 q2 true).tokenized
      = [systemPrompt doc, q1 ++ "\n", q2 ++ "\n"] ∧
    (runNotebook fs m tok q1 q2 true).origin_len = (tok (systemPrompt doc)).length ∧
    (runNotebook fs m tok q1 q2 true).genCaches.length = 2 ∧
    ∀ c ∈ (runNotebook fs m tok q1 q2 true).genCaches,
      ∀ t ∈ c.key_cache ++ c.value_cache,
        hasSeqLen t ((runNotebook fs m tok q1 q2 true).origin_len) := by
  have hrun : runNotebook fs m tok q1 q2 true
      = ⟨["document.txt"], 1,
          [systemPrompt doc, q1 ++ "\n", q2 ++ "\n"], 2,
          [clean_up (get_kv_cache m tok (systemPrompt doc))
              (tensorSeqLen ((get_kv_cache m tok (systemPrompt doc)).key_cache.headD [])),
            clean_up
              (generate m (tok (q1 ++ "\n"))
                (clean_up (get_kv_cache m tok (systemPrompt doc))
                  (tensorSeqLen
                    ((get_kv_cache m tok (systemPrompt doc)).key_cache.headD []))) 50).2
              (tensorSeqLen ((get_kv_cache m tok (systemPrompt doc)).key_cache.headD []))],
          [(generate m (tok (q1 ++ "\n"))
              (clean_up (get_kv_cache m tok (systemPrompt doc))
                (tensorSeqLen
                  ((get_kv_cache m tok (systemPrompt doc)).key_cache.headD []))) 50).1,
            (generate m (tok (q2 ++ "\n"))
              (clean_up
                (generate m (tok (q1 ++ "\n"))
                  (clean_up (get_kv_cache m tok (systemPrompt doc))
                    (tensorSeqLen
                      ((get_kv_cache m tok (systemPrompt doc)).key_cache.headD []))) 50).2
                (tensorSeqLen
                  ((get_kv_cache m tok (systemPrompt doc)).key_cache.headD []))) 50).1],
          tensorSeqLen ((get_kv_cache m tok (systemPrompt doc)).key_cache.headD []),
          none⟩ := by
    unfold runNotebook
    rw [hdoc]
    rfl
  have holen := get_kv_cache_origin_len m tok (systemPrompt doc) hL hH
  rw [hrun]
  refine ⟨rfl, rfl, holen, rfl, ?_⟩
  intro c hc
  have hge0 : cacheGe m (tensorSeqLen
      ((get_kv_cache m tok (systemPrompt doc)).key_cache.headD []))
      (get_kv_cache m tok (systemPrompt doc)) := by
    rw [holen]
    exact get_kv_cache_cacheGe m tok (systemPrompt doc)
  rcases List.mem_cons.mp hc with rfl | hc
  · exact clean_up_hasSeqLen _ _ (fun t ht => (hge0.2.2 t ht).2)
  · rcases List.mem_cons.mp hc with rfl | hc
    · refine clean_up_hasSeqLen _ _ ?_
      have hg1 := generate_cacheGe m _ (tok (q1 ++ "\n")) _ 50 (clean_up_cacheGe m _ _ hge0)
      exact fun t ht => (hg1.2.2 t ht).2
    · simp at hc

end Cag
